import Mathlib

/-!
Verification development for the redhub wire codec and command-framing
pipeline (package `resp`, file comparse.go, and the session logic of
redhub.go).

Modelling conventions:
* Go byte slices are modelled as `List Nat` (each element a byte value).
  Slices are values here; Go aliasing is observationally irrelevant for the
  properties below because the code never mutates a slice it has returned.
* Go `int` is 64-bit.  Index arithmetic that can overflow (`i+size+2` with an
  attacker-controlled `size`) is modelled on `Int` with an explicit wrap at
  2^64 (`wrap64`); quantities that are genuine lengths of real slices are
  kept as `Nat` (a Go slice length always fits in an int, so no wrap can
  occur there).
* A Go runtime panic from an out-of-range index or slice is a distinct
  result constructor (`panic` in the result types below).
* Index-stepping `for` loops are translated structurally: a loop that walks
  the buffer becomes recursion on the suffix `b.drop i` (carrying the
  absolute index, and the previous byte where the loop reads `b[i-1]`), and
  a loop whose progress is not a simple suffix walk gets an explicit fuel
  parameter together with a distinct `fuelOut` result that is unreachable
  for the fuel supplied by its wrapper.  The top-level loop of
  `ReadCommands` is genuinely able to run forever, so it is exposed with an
  explicit fuel parameter and `none` as the "has not returned after `fuel`
  iterations" result.
-/

/-- Bytes of an ASCII string literal. -/
def strB (s : String) : List Nat := s.toList.map Char.toNat

/-- Signed 64-bit wrap-around, the semantics of Go `int` addition overflow. -/
def wrap64 (x : Int) : Int :=
  ((x + 9223372036854775808) % 18446744073709551616) - 9223372036854775808

/-- Go slice indexing with an `Int` index: `none` is a runtime panic
(index negative or beyond the slice length). -/
def getI (b : List Nat) (k : Int) : Option Nat :=
  if k < 0 then none else b.get? k.toNat

/-- Go slicing `b[lo:hi]` (in-range at all call sites where it is used). -/
def sliceGo (b : List Nat) (lo hi : Nat) : List Nat :=
  (b.drop lo).take (hi - lo)

/-- Decimal digit production of Go strconv (fuelled; most significant digit
first, `[]` for 0).  The fuel `n + 1` of the wrapper `natDecAux` dominates
the digit count, so it never runs out. -/
def natDecAuxF : Nat → Nat → List Nat
  | 0, _ => []
  | fuel+1, n => if n = 0 then [] else natDecAuxF fuel (n / 10) ++ [48 + n % 10]

/-- Decimal digits of a positive number, `[]` for 0. -/
def natDecAux (n : Nat) : List Nat := natDecAuxF (n + 1) n

/-- Decimal digits of a natural number, as produced by Go strconv. -/
def natDecimal (n : Nat) : List Nat :=
  if n = 0 then [48] else natDecAux n

/-- Decimal bytes of an integer, as produced by Go strconv.AppendInt. -/
def intDecimal (n : Int) : List Nat :=
  if n < 0 then 45 :: natDecimal (-n).toNat else natDecimal n.toNat

/-- Accumulating decimal scan: `none` when a non-digit byte is met.
This is the digit loop inside Go strconv.Atoi. -/
def digCore : List Nat → Nat → Option Nat
  | [], acc => some acc
  | c :: t, acc =>
    if 48 ≤ c ∧ c ≤ 57 then digCore t (acc * 10 + (c - 48)) else none

/-- Value of a non-empty all-digit byte string. -/
def digitsVal (s : List Nat) : Option Nat :=
  if s = [] then none else digCore s 0

/-- Go strconv.Atoi on a byte string: optional sign, at least one digit,
64-bit signed range check (`none` is Atoi returning an error).  This is the
`parseInt` helper of comparse.go. -/
def parseIntGo (s : List Nat) : Option Int :=
  match s with
  | [] => none
  | c :: t =>
    if c = 43 then (digitsVal t).bind fun v =>
      if v ≤ 9223372036854775807 then some (v : Int) else none
    else if c = 45 then (digitsVal t).bind fun v =>
      if v ≤ 9223372036854775808 then some (-(v : Int)) else none
    else (digitsVal (c :: t)).bind fun v =>
      if v ≤ 9223372036854775807 then some (v : Int) else none

namespace Resp

/-- The protocol-level errors of comparse.go (`errProtocol` values and the
dynamic expected-dollar error of ReadNextCommand). -/
inductive ProtErr where
  | unbalancedQuotes
  | invalidBulkLength
  | invalidMultiBulkLength
  | invalidMessage
  | expectedDollar (got : Nat)
deriving DecidableEq, Repr

/-- `errProtocol.Error()`: the message with the "Protocol error: " text.
The expected-dollar message interpolates the offending byte. -/
def errString : ProtErr → List Nat
  | .unbalancedQuotes => strB "Protocol error: unbalanced quotes in request"
  | .invalidBulkLength => strB "Protocol error: invalid bulk length"
  | .invalidMultiBulkLength => strB "Protocol error: invalid multibulk length"
  | .invalidMessage => strB "Protocol error: invalid message"
  | .expectedDollar c =>
      strB "Protocol error: expected \x27$\x27, got \x27" ++ [c] ++ strB "\x27"

/-- `resp.Command`: raw RESP bytes plus parsed arguments. -/
structure Command where
  Raw : List Nat
  Args : List (List Nat)
deriving DecidableEq, Repr

/-- Result of one `parseRESPCommand` / `parsePlainTextCommand` call:
`ok cmd rest` is Go `(cmd, rest, nil)` (with `cmd` possibly nil),
`perr e` is Go `(nil, _, err)`, `panic` a runtime index panic, and
`fuelOut` the (unreachable) exhaustion of the outer-scan fuel. -/
inductive PRes where
  | fuelOut
  | panic
  | perr (e : ProtErr)
  | ok (cmd : Option Command) (rest : List Nat)
deriving DecidableEq, Repr

/-- Returns of the inner loops of parseRESPCommand that carry no command:
the Go sites `return nil, nil, err`, a panic, and `return nil, b, nil`. -/
inductive ArgsRet where
  | panic
  | perr (e : ProtErr)
  | okNone
deriving DecidableEq, Repr

/-- Result of the bulk-header scanning loop (`for ; i < len(b); i++`) inside
parseRESPCommand: fell off the end at index `i`, returned from the
function, or parsed one argument (`found i2 m`: loop index after
`i += size + 1`, and the pair of offsets appended to `marks`). -/
inductive ScanRes where
  | fellOff (i : Nat)
  | ret (r : ArgsRet)
  | found (i2 : Nat) (m : Nat × Nat)
deriving DecidableEq, Repr

/-- The inner scanning loop of parseRESPCommand (comparse.go lines 160-180):
look for the `\n` of a `$<len>\r\n` header and then check/skip the argument
bytes.  The walked list is the suffix `b.drop i`, `i` the absolute index,
`prev` the byte `b[i-1]` (never consulted on the first step, where
`b[i] = 36`), `si` the position of the `$`.  `i+size+2` is computed with
64-bit wrap-around exactly as Go does; an out-of-range resulting index is a
panic. -/
def prcScanBulk (b : List Nat) (si : Nat) : Nat → List Nat → Nat → ScanRes
  | _, [], i => .fellOff i
  | prev, c :: t, i =>
    if c = 10 then
      if prev ≠ 13 then .ret (.perr .invalidBulkLength)
      else match parseIntGo (sliceGo b (si+1) (i-1)) with
        | none => .ret (.perr .invalidBulkLength)
        | some size =>
          if size < 0 then .ret (.perr .invalidBulkLength)
          else if (b.length : Int) ≤ wrap64 ((i : Int) + size + 2) then .ret .okNone
          else match getI b (wrap64 ((i : Int) + size + 2)) with
            | none => .ret .panic
            | some c2 =>
              if c2 ≠ 10 then .ret (.perr .invalidBulkLength)
              else match getI b (wrap64 ((i : Int) + size + 1)) with
                | none => .ret .panic
                | some c1 =>
                  if c1 ≠ 13 then .ret (.perr .invalidBulkLength)
                  else .found (i + size.toNat + 2) (i + 1, i + 1 + size.toNat)
    else prcScanBulk b si c t (i+1)

/-- Result of the argument loop (`for j := 0; j < count; j++`) of
parseRESPCommand: either a return out of the function, or normal loop exit
with the final scan index and the collected `marks` pairs. -/
inductive ArgsRes where
  | ret (r : ArgsRet)
  | done (i : Nat) (marks : List (Nat × Nat))
deriving DecidableEq, Repr

/-- The argument loop of parseRESPCommand (comparse.go lines 154-181),
with `k` the number of remaining iterations of `j`. -/
def prcArgs (b : List Nat) : Nat → Nat → List (Nat × Nat) → ArgsRes
  | 0, i, marks => .done i marks
  | k+1, i, marks =>
    let i1 := i + 1
    if b.length ≤ i1 ∨ b.getD i1 0 ≠ 36 then .ret .okNone
    else match prcScanBulk b i1 0 (b.drop i1) i1 with
      | .fellOff i2 => prcArgs b k i2 marks
      | .ret r => .ret r
      | .found i2 m => prcArgs b k i2 (marks ++ [m])

/-- The outer `for i := 1; i < len(b); i++` loop of parseRESPCommand
(comparse.go lines 144-193).  `fuel` bounds the number of loop entries; the
loop index strictly increases and never exceeds `b.length + 1`, so the
`b.length + 2` supplied by `parseRESPCommand` always suffices. -/
def prcOuter (b : List Nat) : Nat → Nat → PRes
  | 0, _ => .fuelOut
  | fuel+1, i =>
    if b.length ≤ i then .ok none b
    else if b.getD i 0 = 10 then
      if b.getD (i-1) 0 ≠ 13 then .perr .invalidMultiBulkLength
      else match parseIntGo (sliceGo b 1 (i-1)) with
        | none => .perr .invalidMultiBulkLength
        | some count =>
          if count ≤ 0 then .perr .invalidMultiBulkLength
          else match prcArgs b count.toNat i [] with
            | .ret .panic => .panic
            | .ret (.perr e) => .perr e
            | .ret .okNone => .ok none b
            | .done i2 marks =>
              if marks.length = count.toNat then
                let raw := b.take (i2+1)
                .ok (some ⟨raw, marks.map fun m => sliceGo raw m.1 m.2⟩) (b.drop (i2+1))
              else prcOuter b fuel (i2+1)
    else prcOuter b fuel (i+1)

/-- `parseRESPCommand` of comparse.go. -/
def parseRESPCommand (b : List Nat) : PRes :=
  prcOuter b (b.length + 2) 1

/-- First index holding a `\n` byte, searching from offset `i`. -/
def findNL : List Nat → Nat → Option Nat
  | [], _ => none
  | c :: t, i => if c = 10 then some i else findNL t (i+1)

/-- The character loop of `parseLine` (comparse.go lines 248-289), with `i`
the ORIGINAL line index of the head of the remaining bytes.  The quote-open
test `if i != 0` compares against this global line index (the source of the
quoting bug).  Returns the final `(args, arg, quote)` state or the
unbalanced-quotes error. -/
def parseLineLoop :
    List Nat → Nat → Bool → Nat → Bool → List Nat → List (List Nat) →
    Except ProtErr (List (List Nat) × List Nat × Bool)
  | [], _, quote, _, _, arg, args => .ok (args, arg, quote)
  | c :: rest, i, quote, quotech, escape, arg, args =>
    if ¬ quote then
      if c = 32 then
        parseLineLoop rest (i+1) quote quotech escape []
          (if arg ≠ [] then args ++ [arg] else args)
      else if c = 34 ∨ c = 39 then
        if i ≠ 0 then .error .unbalancedQuotes
        else parseLineLoop rest (i+1) true c escape arg args
      else parseLineLoop rest (i+1) quote quotech escape (arg ++ [c]) args
    else
      if escape then
        let c2 := if c = 110 then 10 else if c = 114 then 13
          else if c = 116 then 9 else c
        parseLineLoop rest (i+1) quote quotech false (arg ++ [c2]) args
      else if c = quotech then
        parseLineLoop rest (i+1) false 0 escape [] (args ++ [arg])
      else if c = 92 then
        parseLineLoop rest (i+1) quote quotech true arg args
      else parseLineLoop rest (i+1) quote quotech escape (arg ++ [c]) args

/-- Bytes built by the `Writer` conversion at the end of `parseLine`
(WriteArray then WriteBulk for every argument). -/
def writerRaw (args : List (List Nat)) : List Nat :=
  (42 :: natDecimal args.length ++ [13, 10]) ++
    (args.map fun a => 36 :: natDecimal a.length ++ [13, 10] ++ a ++ [13, 10]).flatten

/-- `parseLine` of comparse.go: split one plain-text line into arguments,
`none` for an empty line. -/
def parseLine (line : List Nat) : Except ProtErr (Option Command) :=
  match parseLineLoop line 0 false 0 false [] [] with
  | .error e => .error e
  | .ok (args, arg, quote) =>
    if quote then .error .unbalancedQuotes
    else
      let args2 := if arg ≠ [] then args ++ [arg] else args
      if args2 ≠ [] then .ok (some ⟨writerRaw args2, args2⟩) else .ok none

/-- `parsePlainTextCommand` of comparse.go. -/
def parsePlainTextCommand (b : List Nat) : PRes :=
  match findNL b 0 with
  | none => .ok none b
  | some i =>
    let line := if 0 < i ∧ b.getD (i-1) 0 = 13 then b.take (i-1) else b.take i
    match parseLine line with
    | .error e => .perr e
    | .ok (some cmd) => .ok (some cmd) (b.drop (i+1))
    | .ok none => .ok none (b.drop (i+1))

/-- One dialect dispatch of the `ReadCommands` loop body. -/
def rcStep (b : List Nat) : PRes :=
  if b.getD 0 0 = 42 then parseRESPCommand b else parsePlainTextCommand b

/-- Observable outcome of a `ReadCommands` call that returned. -/
inductive RCOut where
  | panic
  | rerr (e : ProtErr)
  | done (cmds : List Command) (leftover : List Nat)
deriving DecidableEq, Repr

/-- The `for len(b) > 0` loop of `ReadCommands` (comparse.go lines 95-127).
The loop body does not necessarily shrink `b` (an incomplete parse returns
the buffer unchanged), so the loop can run forever; `none` means the loop
has not returned within `fuel` iterations.  On normal exit `b` is empty, so
the trailing `writeback` assignment keeps `leftover = []`. -/
def readCommandsF : Nat → List Command → List Nat → Option RCOut
  | 0, _, _ => none
  | fuel+1, cmds, b =>
    match b with
    | [] => some (.done cmds [])
    | _ :: _ =>
      match rcStep b with
      | .fuelOut => none
      | .panic => some .panic
      | .perr e => some (.rerr e)
      | .ok copt rest => readCommandsF fuel (cmds ++ copt.toList) rest

/-- `ReadCommands` of comparse.go, with an explicit iteration budget. -/
def ReadCommands (fuel : Nat) (buf : List Nat) : Option RCOut :=
  readCommandsF fuel [] buf

/-- `stripNewlines` of comparse.go: replace every CR/LF byte by a space
(the `strings.Replace` calls replace the single bytes `\r` and `\n`; the
early-exit scan in the source is observationally the identity). -/
def stripNewlines (s : List Nat) : List Nat :=
  s.map fun c => if c = 13 ∨ c = 10 then 32 else c

/-- `appendPrefix` of comparse.go (single-digit fast path, then
strconv.AppendInt). -/
def appendPfx (b : List Nat) (c : Nat) (n : Int) : List Nat :=
  if 0 ≤ n ∧ n ≤ 9 then b ++ [c, 48 + n.toNat, 13, 10]
  else b ++ c :: intDecimal n ++ [13, 10]

/-- `AppendInt` of comparse.go. -/
def AppendInt (b : List Nat) (n : Int) : List Nat := appendPfx b 58 n

/-- `AppendArray` of comparse.go. -/
def AppendArray (b : List Nat) (n : Int) : List Nat := appendPfx b 42 n

/-- `AppendBulk` of comparse.go. -/
def AppendBulk (b bulk : List Nat) : List Nat :=
  appendPfx b 36 bulk.length ++ bulk ++ [13, 10]

/-- `AppendString` of comparse.go. -/
def AppendString (b s : List Nat) : List Nat :=
  b ++ 43 :: stripNewlines s ++ [13, 10]

/-- `AppendError` of comparse.go. -/
def AppendError (b s : List Nat) : List Nat :=
  b ++ 45 :: stripNewlines s ++ [13, 10]

/-- `AppendNull` of comparse.go. -/
def AppendNull (b : List Nat) : List Nat := b ++ strB "$-1\x0d\x0a"

/-- The `RESP` struct of comparse.go.  `data = none` models a nil `Data`
slice (set only for a null bulk and in the zero value); an empty-but-present
payload is `some []`. -/
structure RESPv where
  type : Nat := 0
  raw : List Nat := []
  data : Option (List Nat) := none
  count : Int := 0
deriving DecidableEq, Repr

/-- Result of `ReadNextRESP`: `res n r` is the Go return `(n, resp)`
(failures are `res 0 {}` exactly as in the source); `panic` is a runtime
index panic; `fuelOut` cannot occur for the wrapper `ReadNextRESP`. -/
inductive RR where
  | panic
  | fuelOut
  | res (n : Nat) (r : RESPv)
deriving DecidableEq, Repr

/-- The read-to-end-of-line loop of `ReadNextRESP` (`for ; ; i++` at
comparse.go lines 1068-1079): `prev` is the byte before the current one,
`pos` the current index.  Returns the index just after the `\n`, or `none`
for both the not-enough-data and the missing-CR returns (which coincide in
the source: `(0, RESP{})`). -/
def scanCR : Nat → List Nat → Nat → Option Nat
  | _, [], _ => none
  | prev, c :: t, pos =>
    if c = 10 then (if prev = 13 then some (pos + 1) else none)
    else scanCR c t (pos + 1)

/-- A decimal digit byte. -/
def isDigit (c : Nat) : Bool := decide (48 ≤ c ∧ c ≤ 57)

/-- The integer-payload validation loop of `ReadNextRESP` (lines 1084-1098):
optional leading minus, then at least one digit. -/
def isValidInt (d : List Nat) : Bool :=
  match d with
  | [] => false
  | c :: t => if c = 45 then (!t.isEmpty) && t.all isDigit else (c :: t).all isDigit

/-- Element-loop outcome for the Array branch of `ReadNextRESP`:
`ok tn` is the accumulated byte count of the parsed elements, `abort` the
`rresp.Type == 0` early return. -/
inductive ERes where
  | panic
  | fuelOut
  | abort
  | ok (tn : Nat)
deriving DecidableEq, Repr

/-- The `for j := 0; j < resp.Count; j++` element loop of the Array branch
of `ReadNextRESP` (comparse.go lines 1134-1141): `rf` reads one value
(`ReadNextRESP` at the enclosing recursion depth), `k` the remaining
element count, `sdata` the current suffix. -/
def readElemsGo (rf : List Nat → RR) : Nat → List Nat → ERes
  | 0, _ => .ok 0
  | k+1, sdata =>
    match rf sdata with
    | .panic => .panic
    | .fuelOut => .fuelOut
    | .res rn rr =>
      if rr.type = 0 then .abort
      else match readElemsGo rf k (sdata.drop rn) with
        | .ok tn => .ok (rn + tn)
        | e => e

/-- `ReadNextRESP` of comparse.go (lines 1056-1145) with a fuel bound on the
recursion depth.  Each recursive call is on a strictly shorter suffix, so
the `b.length + 1` supplied by the wrapper `ReadNextRESP` never runs out.
The bulk bound check `len(b) < i+resp.Count+2` and the two index accesses
wrap at 64 bits exactly like Go ints. -/
def readF : Nat → List Nat → RR
  | 0, _ => .fuelOut
  | fuel+1, b =>
    match b with
    | [] => .res 0 {}
    | b0 :: rest =>
      if ¬ (b0 = 58 ∨ b0 = 43 ∨ b0 = 36 ∨ b0 = 42 ∨ b0 = 45) then .res 0 {}
      else match scanCR b0 rest 1 with
      | none => .res 0 {}
      | some i =>
        let raw := b.take i
        let data := sliceGo b 1 (i-2)
        if b0 = 58 then
          if isValidInt data then .res i ⟨58, raw, some data, 0⟩ else .res 0 {}
        else if b0 = 43 ∨ b0 = 45 then .res i ⟨b0, raw, some data, 0⟩
        else match parseIntGo data with
        | none => .res 0 {}
        | some cnt =>
          if b0 = 36 then
            if cnt < 0 then .res i ⟨36, raw, none, 0⟩
            else if (b.length : Int) < wrap64 ((i : Int) + cnt + 2) then .res 0 {}
            else match getI b (wrap64 ((i : Int) + cnt)) with
              | none => .panic
              | some c1 =>
                if c1 ≠ 13 then .res 0 {}
                else match getI b (wrap64 ((i : Int) + cnt + 1)) with
                  | none => .panic
                  | some c2 =>
                    if c2 ≠ 10 then .res 0 {}
                    else .res (i + cnt.toNat + 2)
                      ⟨36, b.take (i + cnt.toNat + 2), some (sliceGo b i (i + cnt.toNat)), 0⟩
          else
            match readElemsGo (readF fuel) (if cnt ≤ 0 then 0 else cnt.toNat) (b.drop i) with
            | .panic => .panic
            | .fuelOut => .fuelOut
            | .abort => .res 0 {}
            | .ok tn => .res (i + tn) ⟨42, b.take (i + tn), some (sliceGo b i (i + tn)), cnt⟩

/-- `ReadNextRESP` of comparse.go.  The recursion of the source is on strict
suffixes, each at least 4 bytes shorter per nesting level, so the depth is
below `b.length + 1` and the fuel never runs out. -/
def ReadNextRESP (b : List Nat) : RR := readF (b.length + 1) b

/-- The `Kind` enumeration of comparse.go. -/
inductive Kind where
  | Redis
  | Tile38
  | Telnet
deriving DecidableEq, Repr

/-- Result of `ReadNextCommand` and its dialect helpers: the Go quintuple
`(complete, args, kind, leftover, err)`, plus runtime panic and the
(unreachable) fuel exhaustion of the fuelled sub-loops. -/
inductive NCRes where
  | panic
  | fuelOut
  | res (complete : Bool) (args : List (List Nat)) (kind : Kind)
      (leftover : List Nat) (err : Option ProtErr)
deriving DecidableEq, Repr

/-- ASCII lowering; Go strings.ToLower agrees with this on the byte strings
compared here ("set" / "string"). -/
def toLowerB (s : List Nat) : List Nat :=
  s.map fun c => if 65 ≤ c ∧ c ≤ 90 then c + 32 else c

/-- First index holding a space byte, searching from offset `i`. -/
def findSpace : List Nat → Nat → Option Nat
  | [], _ => none
  | c :: t, i => if c = 32 then some i else findSpace t (i+1)

/-- Outcome of the tile38 payload-splitting loop: the argument list, a
runtime panic (`line[1:0]` on a lone quote), or fuel exhaustion (the loop
strictly shrinks `line`, so the `line.length + 1` supplied by
`readTile38Command` never runs out). -/
inductive T38L where
  | panic
  | fuelOut
  | ok (args : List (List Nat))
deriving DecidableEq, Repr

/-- The `reading:` loop of readTile38Command (comparse.go lines 1274-1305):
split the payload on spaces, keep a trailing `{`-led token whole, and
unwrap the final quoted argument of a `SET ... STRING "<value>"` sequence. -/
def t38Line : Nat → List (List Nat) → List Nat → T38L
  | 0, _, _ => .fuelOut
  | _+1, args, [] => .ok args
  | fuel+1, args, c :: t =>
    let line := c :: t
    if c = 123 then .ok (args ++ [line])
    else if c = 34 ∧ line.getD (line.length - 1) 0 = 34 ∧ args ≠ [] ∧
        toLowerB (args.headD []) = strB "set" ∧
        toLowerB (args.getLastD []) = strB "string" then
      if line.length < 2 then .panic
      else .ok (args ++ [sliceGo line 1 (line.length - 1)])
    else match findSpace line 0 with
      | some i =>
        let value := line.take i
        t38Line fuel (if value ≠ [] then args ++ [value] else args) (line.drop (i+1))
      | none => .ok (args ++ [line])

/-- The header scan of readTile38Command (comparse.go lines 1262-1310):
walk `packet` for the space after `$<len>`; the walked list is the suffix
`packet.drop i`.  The bound check `len(packet) >= i+n+2` and the two index
accesses wrap at 64 bits like Go ints. -/
def t38Scan (packet : List Nat) : List Nat → Nat → NCRes
  | [], _ => .res false [] .Tile38 packet none
  | c :: t, i =>
    if c = 32 then
      match parseIntGo (sliceGo packet 1 i) with
      | none => .res false [] .Tile38 packet (some .invalidMessage)
      | some n =>
        if n < 0 then .res false [] .Tile38 packet (some .invalidMessage)
        else
          let i1 := i + 1
          if (packet.length : Int) ≥ wrap64 ((i1 : Int) + n + 2) then
            match getI packet (wrap64 ((i1 : Int) + n)) with
            | none => .panic
            | some c1 =>
              if c1 ≠ 13 then .res false [] .Tile38 packet (some .invalidMessage)
              else match getI packet (wrap64 ((i1 : Int) + n + 1)) with
                | none => .panic
                | some c2 =>
                  if c2 ≠ 10 then .res false [] .Tile38 packet (some .invalidMessage)
                  else
                    let line := sliceGo packet i1 (i1 + n.toNat)
                    match t38Line (line.length + 1) [] line with
                    | .panic => .panic
                    | .fuelOut => .fuelOut
                    | .ok args =>
                      .res true args .Tile38 (packet.drop (i1 + n.toNat + 2)) none
          else .res false [] .Tile38 packet none
    else t38Scan packet t (i+1)

/-- `readTile38Command` of comparse.go. -/
def readTile38Command (packet : List Nat) : NCRes :=
  t38Scan packet (packet.drop 1) 1

/-- One step of the character loop inside `readTelnetCommand`: `cont` is a
`continue outer`, `errQ` the unbalanced-quotes return, `finished` the
natural loop exit (which appends the remaining segment as-is). -/
inductive TelIn where
  | cont (args : List (List Nat)) (line2 : List Nat) (quote : Bool) (quotech : Nat)
      (escape : Bool)
  | errQ
  | finished (args : List (List Nat))
deriving DecidableEq, Repr

/-- The inner `for i := 0; i < len(line); i++` loop of readTelnetCommand
(comparse.go lines 1332-1377): `line` is the current segment, walked as its
own suffix with `i` the segment index; `nline` the bytes collected for the
current token. -/
def telInner (line : List Nat) :
    List Nat → Nat → Bool → Nat → Bool → List Nat → List (List Nat) → TelIn
  | [], _, quote, _, _, _, args =>
    if quote then .errQ
    else .finished (if line ≠ [] then args ++ [line] else args)
  | c :: t, i, quote, quotech, escape, nline, args =>
    if ¬ quote then
      if c = 32 then
        .cont (if nline ≠ [] then args ++ [nline] else args) (line.drop (i+1))
          quote quotech escape
      else if c = 34 ∨ c = 39 then
        if i ≠ 0 then .errQ else .cont args (line.drop (i+1)) true c escape
      else telInner line t (i+1) quote quotech escape (nline ++ [c]) args
    else
      if escape then
        let c2 := if c = 110 then 10 else if c = 114 then 13
          else if c = 116 then 9 else c
        telInner line t (i+1) quote quotech false (nline ++ [c2]) args
      else if c = quotech then
        let line2 := line.drop (i+1)
        if line2 ≠ [] ∧ line2.getD 0 0 ≠ 32 then .errQ
        else .cont (args ++ [nline]) line2 false 0 escape
      else if c = 92 then telInner line t (i+1) quote quotech true nline args
      else telInner line t (i+1) quote quotech escape (nline ++ [c]) args

/-- Outcome of the `outer:` loop of readTelnetCommand. -/
inductive TelOut where
  | fuelOut
  | errQ
  | ok (args : List (List Nat))
deriving DecidableEq, Repr

/-- The `outer:` loop of readTelnetCommand: every iteration restarts the
inner loop at index 0 with an empty `nline` on a strictly shorter segment,
so the `line.length + 1` fuel supplied by `readTelnetCommand` never runs
out. -/
def telOuter : Nat → List Nat → Bool → Nat → Bool → List (List Nat) → TelOut
  | 0, _, _, _, _, _ => .fuelOut
  | fuel+1, line, quote, quotech, escape, args =>
    match telInner line line 0 quote quotech escape [] args with
    | .errQ => .errQ
    | .finished args2 => .ok args2
    | .cont args2 line2 q2 qc2 esc2 => telOuter fuel line2 q2 qc2 esc2 args2

/-- `readTelnetCommand` of comparse.go (lines 1314-1390). -/
def readTelnetCommand (packet : List Nat) : NCRes :=
  match findNL packet 0 with
  | none => .res false [] .Telnet packet none
  | some i =>
    let line := if 0 < i ∧ packet.getD (i-1) 0 = 13 then packet.take (i-1)
      else packet.take i
    match telOuter (line.length + 1) line false 0 false [] with
    | .fuelOut => .fuelOut
    | .errQ => .res false [] .Telnet packet (some .unbalancedQuotes)
    | .ok args => .res true args .Telnet (packet.drop (i+1)) none

/-- One parsed argument inside the `nextArg` loop of ReadNextCommand:
either a function return, or `argDone i2 args2` for a successfully consumed
argument (`continue nextArg`, or the `j == count-1` return decided by the
caller). -/
inductive RncStep where
  | out (r : NCRes)
  | argDone (i2 : Nat) (args2 : List (List Nat))
deriving DecidableEq, Repr

/-- The bulk scan `for s := i + 1; i < len(packet); i++` inside the
`nextArg` loop of ReadNextCommand (comparse.go lines 1225-1249).  The
walked list is the suffix `packet.drop i`, `prev` the byte `packet[i-1]`
(not consulted on the first step, where `packet[i] = 36`), `s` the digit
start.  Note the source checks `count <= 0` (the enclosing multibulk count,
always positive here) instead of the parsed length `n`, so a negative `n`
can reach the argument slice `packet[i:i+n]` and panic there. -/
def rncBulkScan (packet : List Nat) (count : Int) (s : Nat) :
    Nat → List Nat → Nat → List (List Nat) → RncStep
  | _, [], _, _ => .out (.res false [] .Redis packet none)
  | prev, c :: t, i, args =>
    if c = 10 then
      if prev ≠ 13 then .out (.res false [] .Redis packet (some .invalidBulkLength))
      else match parseIntGo (sliceGo packet s (i-1)) with
      | none => .out (.res false [] .Redis packet (some .invalidBulkLength))
      | some n =>
        if count ≤ 0 then .out (.res false [] .Redis packet (some .invalidBulkLength))
        else
          let i1 := i + 1
          if ((packet.length : Int) - i1) ≥ wrap64 (n + 2) then
            match getI packet (wrap64 ((i1 : Int) + n)) with
            | none => .out .panic
            | some c1 =>
              if c1 ≠ 13 then .out (.res false [] .Redis packet (some .invalidBulkLength))
              else match getI packet (wrap64 ((i1 : Int) + n + 1)) with
              | none => .out .panic
              | some c2 =>
                if c2 ≠ 10 then .out (.res false [] .Redis packet (some .invalidBulkLength))
                else if n < 0 then .out .panic
                else .argDone (i1 + n.toNat + 2) (args ++ [sliceGo packet i1 (i1 + n.toNat)])
          else .out (.res false [] .Redis packet none)
    else rncBulkScan packet count s c t (i+1) args

/-- The `nextArg` loop of ReadNextCommand (comparse.go lines 1215-1251),
with `k` the remaining iterations of `j`. -/
def rncArgs (packet : List Nat) (count : Int) : Nat → Nat → List (List Nat) → NCRes
  | 0, _, _ => .res false [] .Redis packet none
  | k+1, i, args =>
    if i = packet.length then .res false [] .Redis packet none
    else match packet.get? i with
    | none => .panic
    | some c =>
      if c ≠ 36 then .res false [] .Redis packet (some (.expectedDollar c))
      else match rncBulkScan packet count (i+1) 0 (packet.drop i) i args with
        | .out r => r
        | .argDone i2 args2 =>
          if k = 0 then .res true args2 .Redis (packet.drop i2) none
          else rncArgs packet count k i2 args2

/-- The count-line scan of the standard-redis branch of ReadNextCommand
(`for s, i := 1, 1; i < len(packet); i++`, comparse.go lines 1202-1254);
the walked list is the suffix `packet.drop i`. -/
def rncScan (packet : List Nat) : List Nat → Nat → NCRes
  | [], _ => .res false [] .Redis packet none
  | c :: t, i =>
    if c = 10 then
      if packet.getD (i-1) 0 ≠ 13 then
        .res false [] .Redis packet (some .invalidMultiBulkLength)
      else match parseIntGo (sliceGo packet 1 (i-1)) with
      | none => .res false [] .Redis packet (some .invalidMultiBulkLength)
      | some count =>
        if count < 0 then .res false [] .Redis packet (some .invalidMultiBulkLength)
        else
          let i1 := i + 1
          if count = 0 then .res true [] .Redis (packet.drop i1) none
          else rncArgs packet count count.toNat i1 []
    else rncScan packet t (i+1)

/-- `ReadNextCommand` of comparse.go (lines 1190-1257), with an empty
reusable `argsbuf`. -/
def ReadNextCommand (packet : List Nat) : NCRes :=
  if packet = [] then .res false [] .Redis packet none
  else if packet.getD 0 0 ≠ 42 then
    if packet.getD 0 0 = 36 then readTile38Command packet
    else readTelnetCommand packet
  else rncScan packet (packet.drop 1) 1

end Resp

namespace Redhub

/-- The `Action` enumeration of redhub.go (and the gnet actions the session
returns: `none` is gnet.None / redhub.None, `close` gnet.Close, etc.). -/
inductive Action where
  | none
  | close
  | shutdown
deriving DecidableEq, Repr

/-- `connBuffer` of redhub.go: accumulated bytes plus the queue of parsed,
not yet dispatched commands. -/
structure ConnBuffer where
  buf : List Nat
  command : List Resp.Command
deriving DecidableEq, Repr

/-- A user command handler, as registered through `NewRedHub`:
`(cmd, out) -> (out, action)`. -/
abbrev Handler := Resp.Command → List Nat → List Nat × Action

/-- The dispatch loop of `OnTraffic` (redhub.go lines 366-382): pop each
pending command, run the handler, and stop at the first `Close`.  Returns
the writes issued (`c.Write(out)` only fires on non-empty output), the gnet
action, and the commands left in the queue. -/
def dispatchLoop (h : Handler) : List Resp.Command → List Nat →
    List (List Nat) × Action × List Resp.Command
  | [], out => ((if out = [] then [] else [out]), .none, [])
  | cmd :: rest, out =>
    let r := h cmd out
    if r.2 = .close then ((if r.1 = [] then [] else [r.1]), .close, rest)
    else dispatchLoop h rest r.1

/-- Result of one `OnTraffic` event: the writes issued on the connection,
the returned gnet action, and the new connection buffer state. -/
structure OTRes where
  writes : List (List Nat)
  action : Action
  state : ConnBuffer
deriving DecidableEq, Repr

/-- `OnTraffic` of redhub.go (lines 339-388) for a connection whose buffer
is present in the map, with `incoming` the bytes `c.Next(-1)` returned.
`fuel` is the iteration budget handed to `ReadCommands`; `none` means the
event handler did not return normally (the framer loop diverged or
panicked). -/
def onTraffic (fuel : Nat) (h : Handler) (cb : ConnBuffer) (incoming : List Nat) :
    Option OTRes :=
  if incoming = [] then some ⟨[], .none, cb⟩
  else
    let nb := cb.buf ++ incoming
    match Resp.ReadCommands fuel nb with
    | none => none
    | some .panic => none
    | some (.rerr e) =>
      some ⟨[Resp.AppendError [] (strB "ERR " ++ Resp.errString e)], .none,
        ⟨nb, cb.command⟩⟩
    | some (.done cmds lastbyte) =>
      let queue := cb.command ++ cmds
      if lastbyte = [] then
        let r := dispatchLoop h queue []
        some ⟨r.1, r.2.1, ⟨[], r.2.2⟩⟩
      else some ⟨[], .none, ⟨lastbyte, queue⟩⟩

end Redhub

/-- A trivial handler (replies nothing, never closes), used to instantiate
session-level statements. -/
def h0 : Redhub.Handler := fun _ out => (out, .none)

/-- A handler that answers PONG and closes on QUIT, used to instantiate the
close-propagation statements. -/
def hQ : Redhub.Handler := fun cmd out =>
  if cmd.Args.headD [] = strB "QUIT" then (out ++ strB "+OK\x0d\x0a", .close)
  else (out ++ strB "+PONG\x0d\x0a", .none)

/-- The parsed RESP command `PING`. -/
def cmdPING : Resp.Command :=
  ⟨strB "*1\x0d\x0a$4\x0d\x0aPING\x0d\x0a", [strB "PING"]⟩

/-- The parsed RESP command `QUIT`. -/
def cmdQUIT : Resp.Command :=
  ⟨strB "*1\x0d\x0a$4\x0d\x0aQUIT\x0d\x0a", [strB "QUIT"]⟩

/-- Outputs accumulated by running the handler over a command list
(the value of `out` after dispatching those commands without a Close). -/
def Redhub.outAfter (h : Redhub.Handler) : List Resp.Command → List Nat → List Nat
  | [], out => out
  | c :: t, out => Redhub.outAfter h t (h c out).1

/-- The handler returns a non-Close action on every command of the list,
dispatched in order with the accumulated outputs. -/
def Redhub.NoClosePrefixB (h : Redhub.Handler) : List Resp.Command → List Nat → Bool
  | [], _ => true
  | c :: t, out => ((h c out).2 ≠ Redhub.Action.close) && Redhub.NoClosePrefixB h t (h c out).1

namespace Resp

/-- Constructible wire values for the round-trip property: the five RESP
kinds writable through the Append* serializers (a null bulk is written by
`AppendNull`, not by `AppendBulk`, and is not a constructible payload
here). -/
inductive WV where
  | int (n : Int)
  | simple (s : List Nat)
  | err (s : List Nat)
  | bulk (d : List Nat)
  | arr (es : List WV)
deriving Repr

mutual

/-- Serialize a wire value with the corresponding comparse.go write
function: AppendInt, AppendString, AppendError, AppendBulk, and for an
array the AppendArray header followed by the serialized elements. -/
def writeWV : WV → List Nat
  | .int n => AppendInt [] n
  | .simple s => AppendString [] s
  | .err s => AppendError [] s
  | .bulk d => AppendBulk [] d
  | .arr es => AppendArray [] (es.length : Int) ++ writeWVList es

/-- Concatenated serializations of a list of wire values. -/
def writeWVList : List WV → List Nat
  | [] => []
  | e :: t => writeWV e ++ writeWVList t

end

mutual

/-- Constructibility of a wire value in Go: integers fit a 64-bit int,
SimpleString/Error payloads carry no CR/LF (the claim restricts the
round-trip to those), bulk payloads leave the `i+len+2` bound check short
of the 64-bit overflow (any slice a Go program can build does), and array
counts fit an int. -/
def WFb : WV → Bool
  | .int n => decide (-9223372036854775808 ≤ n ∧ n ≤ 9223372036854775807)
  | .simple s => s.all fun c => decide (c ≠ 13 ∧ c ≠ 10)
  | .err s => s.all fun c => decide (c ≠ 13 ∧ c ≠ 10)
  | .bulk d => decide (d.length ≤ 9223372036854775782)
  | .arr es => decide (es.length ≤ 9223372036854775807) && WFbList es

/-- `WFb` on every element. -/
def WFbList : List WV → Bool
  | [] => true
  | e :: t => WFb e && WFbList t

end

/-- The `RESP` record `ReadNextRESP` produces for a serialized wire value:
raw bytes, payload, and element count as the source assigns them. -/
def respOfWV : WV → RESPv
  | .int n => ⟨58, AppendInt [] n, some (intDecimal n), 0⟩
  | .simple s => ⟨43, AppendString [] s, some s, 0⟩
  | .err s => ⟨45, AppendError [] s, some s, 0⟩
  | .bulk d => ⟨36, AppendBulk [] d, some d, 0⟩
  | .arr es => ⟨42, AppendArray [] (es.length : Int) ++ writeWVList es,
      some (writeWVList es), (es.length : Int)⟩

end Resp

section FramerTheorems

open Resp

/-- A non-empty buffer on which the parse step consumes nothing keeps the
`ReadCommands` loop running forever. -/
theorem readCommandsF_stuck (b : List Nat) (hne : b ≠ [])
    (hstep : rcStep b = .ok none b) :
    ∀ fuel cmds, readCommandsF fuel cmds b = none := by
  intro fuel
  induction fuel with
  | zero => intro cmds; rfl
  | succ n ih =>
    intro cmds
    cases b with
    | nil => exact absurd rfl hne
    | cons x t =>
      simp only [readCommandsF, hstep, Option.toList_none, List.append_nil]
      exact ih cmds

/-- Claim C1 (code bug): `ReadCommands` is claimed total and terminating,
reporting no command and consuming nothing on insufficient bytes; but on a
buffer ending mid-command the loop body returns the buffer unchanged and
the `for len(b) > 0` loop never exits: for every iteration budget the call
has not returned, both for a truncated RESP array and for a plain-text
line with no trailing newline. -/
theorem C1_framer_diverges :
    (∀ fuel cmds, Resp.readCommandsF fuel cmds (strB "*2\x0d\x0a$3\x0d\x0afoo") = none) ∧
    (∀ fuel cmds, Resp.readCommandsF fuel cmds (strB "SET x") = none) :=
  ⟨readCommandsF_stuck _ (by decide) (by decide),
   readCommandsF_stuck _ (by decide) (by decide)⟩

/-- Claim C2 (code bug): on the buffer `*2\r\n$3\r\nfoo\r\n` (no complete
command, no protocol error) `ReadCommands` is claimed to return zero
commands and the whole buffer as leftover — as its own doc comment also
states — but the call never returns: the parse step consumes nothing and
the loop runs forever for every iteration budget. -/
theorem C2_leftover_never_returned :
    ∀ fuel, Resp.ReadCommands fuel (strB "*2\x0d\x0a$3\x0d\x0afoo\x0d\x0a") = none :=
  fun fuel => readCommandsF_stuck _ (by decide) (by decide) fuel []

/-- Claim C3 (code bug): framing `SET "a b" c\n` is claimed to yield
`args == ["SET", "a b", "c"]`, but `parseLine` compares the quote position
against the whole-line index (`if i != 0`), so any quote after a first
token raises the unbalanced-quotes protocol error; `SET "a\n` errors as the
claim states. -/
theorem C3_plain_text_quote_eval :
    Resp.ReadCommands 2 (strB "SET \x22a b\x22 c\x0a") =
      some (.rerr .unbalancedQuotes) ∧
    Resp.ReadCommands 2 (strB "SET \x22a\x0a") =
      some (.rerr .unbalancedQuotes) := by
  constructor <;> decide

/-- Claim C10 (code bug): both `parseRESPCommand` and `ReadNextRESP` are
claimed free of out-of-bounds accesses for adversarially large declared
bulk lengths, but the guards compute `i+size+2` in wrapping 64-bit
arithmetic: a declared length near the maximum int makes the guard pass
with a wrapped (negative) value and the subsequent index access is out of
range — a runtime panic. -/
theorem C10_bounds_panic :
    Resp.parseRESPCommand (strB "*1\x0d\x0a$9223372036854775807\x0d\x0a") = .panic ∧
    Resp.ReadNextRESP (strB "$9223372036854775807\x0d\x0a") = .panic := by
  constructor <;> decide

/-- Counterexample to claim C6: a declared bulk length strictly below -1 is
claimed invalid (no value, zero bytes consumed), but `ReadNextRESP` treats
every negative length like -1: `$-2\r\n` yields a null Bulk and consumes
the 5 header bytes. -/
theorem C6_counterexample :
    Resp.ReadNextRESP (strB "$-2\x0d\x0a") =
      .res 5 ⟨36, strB "$-2\x0d\x0a", none, 0⟩ ∧
    Resp.ReadNextRESP (strB "$-2\x0d\x0a") ≠ .res 0 {} := by
  constructor <;> decide

/-- Claim C6 as amended: `$-1\r\n` reads as a Bulk with absent payload
consuming exactly the 5 header bytes, distinct from `$0\r\n\r\n` whose
payload is present and empty; and a declared bulk length strictly below -1
is NOT invalid — it is treated exactly like -1 (null bulk, header
consumed). -/
theorem C6_null_bulk_amended :
    Resp.ReadNextRESP (strB "$-1\x0d\x0a") =
      .res 5 ⟨36, strB "$-1\x0d\x0a", none, 0⟩ ∧
    Resp.ReadNextRESP (strB "$0\x0d\x0a\x0d\x0a") =
      .res 6 ⟨36, strB "$0\x0d\x0a\x0d\x0a", some [], 0⟩ ∧
    Resp.ReadNextRESP (strB "$-2\x0d\x0a") =
      .res 5 ⟨36, strB "$-2\x0d\x0a", none, 0⟩ ∧
    (some ([] : List Nat)) ≠ (none : Option (List Nat)) := by
  refine ⟨by decide, by decide, by decide, by decide⟩

/-- Counterexample to claim C5: the batch framer `ReadCommands` does NOT
frame a `$`-led buffer under the native line dialect — it falls through to
the plain-text parser, so `$13 SET key value\r\n` frames with `"$13"` kept
as the first argument instead of the native dialect result
`["SET","key","value"]`. -/
theorem C5_counterexample :
    Resp.ReadCommands 2 (strB "$13 SET key value\x0d\x0a") =
      some (.done [⟨Resp.writerRaw [strB "$13", strB "SET", strB "key", strB "value"],
        [strB "$13", strB "SET", strB "key", strB "value"]⟩] []) ∧
    Resp.readTile38Command (strB "$13 SET key value\x0d\x0a") =
      .res true [strB "SET", strB "key", strB "value"] .Tile38 [] none ∧
    [strB "$13", strB "SET", strB "key", strB "value"] ≠
      [strB "SET", strB "key", strB "value"] := by
  refine ⟨by decide, by decide, by decide⟩

/-- Claim C5 as amended: it is the single-command framer `ReadNextCommand`
that dispatches every `$`-led packet to the native (tile38) line dialect —
which splits the payload on whitespace, keeps a JSON-looking trailing token
opaque, and unwraps the final quoted argument of a `SET ... STRING "<v>"`
sequence — while the batch framer `ReadCommands` sends `$`-led buffers to
the plain-text dialect instead. -/
theorem C5_native_dialect_amended :
    (∀ packet : List Nat, packet ≠ [] → packet.getD 0 0 = 36 →
      Resp.ReadNextCommand packet = Resp.readTile38Command packet) ∧
    Resp.readTile38Command (strB "$13 SET key value\x0d\x0a") =
      .res true [strB "SET", strB "key", strB "value"] .Tile38 [] none ∧
    Resp.readTile38Command (strB "$16 SET x \x7b\x22lat\x22:33\x7d\x0d\x0a") =
      .res true [strB "SET", strB "x", strB "\x7b\x22lat\x22:33\x7d"] .Tile38 [] none ∧
    Resp.readTile38Command (strB "$18 SET k STRING \x22a b\x22\x0d\x0a") =
      .res true [strB "SET", strB "k", strB "STRING", strB "a b"] .Tile38 [] none ∧
    Resp.rcStep (strB "$13 SET key value\x0d\x0a") =
      Resp.parsePlainTextCommand (strB "$13 SET key value\x0d\x0a") := by
  refine ⟨?_, by decide, by decide, by decide, by decide⟩
  intro packet hne hd
  unfold Resp.ReadNextCommand
  rw [if_neg hne, hd]
  norm_num

/-- Witness for C5: the dispatch equation instantiated on a concrete
`$`-led packet. -/
theorem C5_native_dialect_witness :
    Resp.ReadNextCommand (strB "$4 PING\x0d\x0a") =
      Resp.readTile38Command (strB "$4 PING\x0d\x0a") :=
  C5_native_dialect_amended.1 _ (by decide) (by decide)

end FramerTheorems

section SessionTheorems

/-- Counterexample to claim C4: on a framer protocol error the session is
claimed to discard the accumulated buffer contents for the event, but
`OnTraffic` returns without resetting the buffer: after feeding `*-2\r\n`
the connection state still holds those bytes (while one `-ERR ...` response
is written, no command is enqueued, and the returned action is continue). -/
theorem C4_counterexample :
    Redhub.onTraffic 2 h0 ⟨[], []⟩ (strB "*-2\x0d\x0a") =
      some ⟨[strB "-ERR Protocol error: invalid multibulk length\x0d\x0a"], .none,
        ⟨strB "*-2\x0d\x0a", []⟩⟩ ∧
    strB "*-2\x0d\x0a" ≠ [] := by
  constructor <;> decide

/-- Claim C4 as amended: when the framer reports a protocol error during a
data-arrival event, the session writes exactly one error response ("ERR "
followed by the error message), enqueues no commands from that buffer,
keeps the accumulated bytes (including the erroring input) in the
connection buffer — it does not discard them — and returns the continue
action rather than closing the connection itself. -/
theorem C4_error_response_amended :
    ∀ fuel (h : Redhub.Handler) (cb : Redhub.ConnBuffer) incoming e,
    incoming ≠ [] →
    Resp.ReadCommands fuel (cb.buf ++ incoming) = some (.rerr e) →
    Redhub.onTraffic fuel h cb incoming =
      some ⟨[Resp.AppendError [] (strB "ERR " ++ Resp.errString e)], .none,
        ⟨cb.buf ++ incoming, cb.command⟩⟩ := by
  intro fuel h cb incoming e hne hread
  simp [Redhub.onTraffic, hne, hread]

/-- Witness for C4: the amended statement instantiated on `*-2\r\n` with an
empty prior buffer. -/
theorem C4_error_response_witness :
    Redhub.onTraffic 3 hQ ⟨[], []⟩ (strB "*-2\x0d\x0a") =
      some ⟨[Resp.AppendError []
          (strB "ERR " ++ Resp.errString .invalidMultiBulkLength)], .none,
        ⟨strB "*-2\x0d\x0a", []⟩⟩ :=
  C4_error_response_amended 3 hQ ⟨[], []⟩ (strB "*-2\x0d\x0a")
    .invalidMultiBulkLength (by decide) (by decide)

end SessionTheorems

section CloseTheorems

/-- Dispatching a queue whose prefix never closes stops at the first
command on which the handler returns Close: that command's accumulated
output is flushed (when non-empty), the action is Close, and the commands
after it are left in the queue untouched. -/
theorem dispatchLoop_close (h : Redhub.Handler) :
    ∀ q1 c q2 out0, Redhub.NoClosePrefixB h q1 out0 = true →
    (h c (Redhub.outAfter h q1 out0)).2 = .close →
    Redhub.dispatchLoop h (q1 ++ c :: q2) out0 =
      ((if (h c (Redhub.outAfter h q1 out0)).1 = [] then []
        else [(h c (Redhub.outAfter h q1 out0)).1]), .close, q2) := by
  intro q1
  induction q1 with
  | nil =>
    intro c q2 out0 _ hc
    simp only [List.nil_append, Redhub.outAfter] at *
    simp [Redhub.dispatchLoop, hc]
  | cons a t ih =>
    intro c q2 out0 hpre hc
    simp only [Redhub.NoClosePrefixB, Bool.and_eq_true, decide_eq_true_eq] at hpre
    simp only [List.cons_append, Redhub.dispatchLoop]
    simp only [Redhub.outAfter] at hc ⊢
    rw [if_neg (by simpa using hpre.1)]
    exact ih c q2 (h a out0).1 hpre.2 hc

/-- Claim C8: if, while dispatching the pending queue, the handler returns
Close for some command (having not closed on the earlier ones), the session
stops dispatching, writes the response bytes accumulated so far (if any),
and reports the close action, leaving the later queued commands
undispatched in the state. -/
theorem C8_close_propagation :
    ∀ fuel (h : Redhub.Handler) (cb : Redhub.ConnBuffer) incoming cmds q1 c q2,
    incoming ≠ [] →
    Resp.ReadCommands fuel (cb.buf ++ incoming) = some (.done cmds []) →
    cb.command ++ cmds = q1 ++ c :: q2 →
    Redhub.NoClosePrefixB h q1 [] = true →
    (h c (Redhub.outAfter h q1 [])).2 = .close →
    Redhub.onTraffic fuel h cb incoming =
      some ⟨(if (h c (Redhub.outAfter h q1 [])).1 = [] then []
             else [(h c (Redhub.outAfter h q1 [])).1]), .close, ⟨[], q2⟩⟩ := by
  intro fuel h cb incoming cmds q1 c q2 hne hread hsplit hpre hc
  simp only [Redhub.onTraffic, if_neg hne, hread]
  rw [hsplit, dispatchLoop_close h q1 c q2 [] hpre hc]
  simp

/-- Witness for C8: a pipelined PING-QUIT-PING read against the
PONG-or-close handler flushes the two accumulated replies, closes, and
leaves the trailing PING undispatched. -/
theorem C8_close_propagation_witness :
    Redhub.onTraffic 4 hQ ⟨[], []⟩
        (strB "*1\x0d\x0a$4\x0d\x0aPING\x0d\x0a*1\x0d\x0a$4\x0d\x0aQUIT\x0d\x0a*1\x0d\x0a$4\x0d\x0aPING\x0d\x0a") =
      some ⟨[strB "+PONG\x0d\x0a+OK\x0d\x0a"], .close, ⟨[], [cmdPING]⟩⟩ := by
  have := C8_close_propagation 4 hQ ⟨[], []⟩
    (strB "*1\x0d\x0a$4\x0d\x0aPING\x0d\x0a*1\x0d\x0a$4\x0d\x0aQUIT\x0d\x0a*1\x0d\x0a$4\x0d\x0aPING\x0d\x0a")
    [cmdPING, cmdQUIT, cmdPING] [cmdPING] cmdQUIT [cmdPING]
    (by decide) (by decide) (by decide) (by decide) (by decide)
  simpa using this

end CloseTheorems

section ArgsTheorems

open Resp

/-- A command produced by `parseRESPCommand` has as many arguments as the
positive multibulk count, hence at least one. -/
theorem prcOuter_some_args :
    ∀ fuel b i cmd rest, prcOuter b fuel i = .ok (some cmd) rest →
    cmd.Args ≠ [] := by
  intro fuel
  induction fuel with
  | zero => intro b i cmd rest h; simp [prcOuter] at h
  | succ n ih =>
    intro b i cmd rest h
    rw [prcOuter] at h
    split at h
    · simp at h
    · split at h
      · split at h
        · simp at h
        · split at h
          · simp at h
          · split at h
            · simp at h
            · split at h
              · simp at h
              · simp at h
              · simp at h
              · rename_i count hcount marks hcount2 i2 hmarks
                split at h
                · rename_i hlen
                  simp only [PRes.ok.injEq, Option.some.injEq] at h
                  obtain ⟨hcmd, -⟩ := h
                  subst hcmd
                  simp only [ne_eq, ← List.length_eq_zero]
                  rw [List.length_map, hlen]
                  omega
                · exact ih b _ cmd rest h
      · exact ih b _ cmd rest h

/-- A command produced by `parseLine` carries the non-empty argument list
checked by the `len(cmd.Args) > 0` guard. -/
theorem parseLine_some_args :
    ∀ line cmd, parseLine line = .ok (some cmd) → cmd.Args ≠ [] := by
  intro line cmd h
  unfold parseLine at h
  split at h
  · simp at h
  · rename_i r args arg quote heq
    split at h
    · simp at h
    · generalize hA : (if arg ≠ [] then args ++ [arg] else args) = A at h
      dsimp only at h
      split at h
      · rename_i hne
        simp only [Except.ok.injEq, Option.some.injEq] at h
        rw [← h]
        exact hne
      · simp at h

/-- A command produced by `parsePlainTextCommand` has a non-empty argument
list. -/
theorem parsePlainTextCommand_some_args :
    ∀ b cmd rest, parsePlainTextCommand b = .ok (some cmd) rest →
    cmd.Args ≠ [] := by
  intro b cmd rest h
  unfold parsePlainTextCommand at h
  split at h
  · simp at h
  · split at h
    all_goals
      dsimp only at h
      split at h
      · simp at h
      · rename_i heq
        simp only [PRes.ok.injEq, Option.some.injEq] at h
        obtain ⟨hcmd, -⟩ := h
        subst hcmd
        exact parseLine_some_args _ _ heq
      · simp at h

/-- A command produced by one framing step has a non-empty argument list. -/
theorem rcStep_some_args :
    ∀ b cmd rest, rcStep b = .ok (some cmd) rest → cmd.Args ≠ [] := by
  intro b cmd rest h
  unfold rcStep at h
  split at h
  · exact prcOuter_some_args _ b 1 cmd rest h
  · exact parsePlainTextCommand_some_args b cmd rest h

/-- Every command in a `ReadCommands` result extends an accumulator of
commands with non-empty argument lists. -/
theorem readCommandsF_args :
    ∀ fuel acc b cmds l, (∀ c ∈ acc, c.Args ≠ []) →
    readCommandsF fuel acc b = some (.done cmds l) →
    ∀ c ∈ cmds, c.Args ≠ [] := by
  intro fuel
  induction fuel with
  | zero => intro acc b cmds l _ h; simp [readCommandsF] at h
  | succ n ih =>
    intro acc b cmds l hacc h
    cases b with
    | nil =>
      simp only [readCommandsF, Option.some.injEq, RCOut.done.injEq] at h
      obtain ⟨hc, -⟩ := h
      subst hc
      exact hacc
    | cons x t =>
      simp only [readCommandsF] at h
      split at h
      · simp at h
      · simp at h
      · simp at h
      · rename_i copt rest hstep
        refine ih (acc ++ copt.toList) rest cmds l ?_ h
        intro c hc
        rcases List.mem_append.mp hc with hmem | hmem
        · exact hacc c hmem
        · cases copt with
          | none => simp at hmem
          | some cmd =>
            simp only [Option.toList_some, List.mem_singleton] at hmem
            exact hmem ▸ rcStep_some_args _ cmd rest hstep

/-- Claim C9: every Command produced by a successful framing pass has a
non-empty Args sequence, and an empty input buffer never yields a
Command. -/
theorem C9_args_nonempty :
    (∀ fuel cmds l, Resp.ReadCommands fuel [] = some (.done cmds l) → cmds = []) ∧
    (∀ fuel buf cmds l, Resp.ReadCommands fuel buf = some (.done cmds l) →
      ∀ c ∈ cmds, c.Args ≠ []) := by
  constructor
  · intro fuel cmds l h
    cases fuel with
    | zero => simp [Resp.ReadCommands, readCommandsF] at h
    | succ n =>
      simp only [Resp.ReadCommands, readCommandsF, Option.some.injEq,
        RCOut.done.injEq] at h
      exact h.1.symm
  · intro fuel buf cmds l h
    exact readCommandsF_args fuel [] buf cmds l (by simp) h

/-- Witness for C9: the PING framed from a plain-text line has a non-empty
argument list. -/
theorem C9_args_nonempty_witness : cmdPING.Args ≠ [] :=
  C9_args_nonempty.2 2 (strB "PING\x0d\x0a") [cmdPING] [] (by decide)
    cmdPING (by simp)

end ArgsTheorems

section RoundTripLemmas

/-- The fuelled digit producer is fuel-independent once the fuel dominates
the argument. -/
theorem natDecAuxF_congr : ∀ f1 f2 n, n < f1 → n < f2 →
    natDecAuxF f1 n = natDecAuxF f2 n := by
  intro f1
  induction f1 with
  | zero => intro f2 n h; omega
  | succ m ih =>
    intro f2 n h1 h2
    cases f2 with
    | zero => omega
    | succ m2 =>
      simp only [natDecAuxF]
      by_cases hn : n = 0
      · simp [hn]
      · have hd : n / 10 < n := Nat.div_lt_self (Nat.pos_of_ne_zero hn) (by norm_num)
        rw [if_neg hn, if_neg hn, ih m2 (n / 10) (by omega) (by omega)]

/-- Recursion equation of the digit producer. -/
theorem natDecAux_eq (n : Nat) :
    natDecAux n = if n = 0 then [] else natDecAux (n / 10) ++ [48 + n % 10] := by
  unfold natDecAux
  by_cases hn : n = 0
  · simp [hn, natDecAuxF]
  · have hd : n / 10 < n := Nat.div_lt_self (Nat.pos_of_ne_zero hn) (by norm_num)
    conv_lhs => rw [natDecAuxF]
    rw [if_neg hn, if_neg hn]
    congr 1
    exact natDecAuxF_congr n (n / 10 + 1) (n / 10) hd (by omega)

/-- Every byte of the digit producer is a decimal digit. -/
theorem natDecAux_digits : ∀ n c, c ∈ natDecAux n → 48 ≤ c ∧ c ≤ 57 := by
  intro n
  induction n using Nat.strong_induction_on with
  | _ n ih =>
    intro c hc
    rw [natDecAux_eq] at hc
    by_cases hn : n = 0
    · simp [hn] at hc
    · rw [if_neg hn] at hc
      rcases List.mem_append.mp hc with h | h
      · exact ih (n / 10) (Nat.div_lt_self (Nat.pos_of_ne_zero hn) (by norm_num)) c h
      · simp only [List.mem_singleton] at h
        subst h
        have := Nat.mod_lt n (y := 10) (by norm_num)
        omega

/-- Splitting the digit scan over an append. -/
theorem digCore_append : ∀ xs ys acc, digCore (xs ++ ys) acc =
    match digCore xs acc with
    | none => none
    | some a => digCore ys a := by
  intro xs
  induction xs with
  | nil => intro ys acc; simp [digCore]
  | cons c t ih =>
    intro ys acc
    simp only [List.cons_append, digCore, List.append_eq]
    by_cases h : 48 ≤ c ∧ c ≤ 57
    · rw [if_pos h, if_pos h, ih]
    · rw [if_neg h, if_neg h]

/-- The digit scan recovers the number the digit producer encoded. -/
theorem digCore_natDecAux : ∀ n acc, digCore (natDecAux n) acc =
    some (acc * 10 ^ (natDecAux n).length + n) := by
  intro n
  induction n using Nat.strong_induction_on with
  | _ n ih =>
    intro acc
    rw [natDecAux_eq]
    by_cases hn : n = 0
    · simp [hn, digCore]
    · rw [if_neg hn]
      have hd : n / 10 < n := Nat.div_lt_self (Nat.pos_of_ne_zero hn) (by norm_num)
      rw [digCore_append, ih (n / 10) hd acc]
      have hm : n % 10 < 10 := Nat.mod_lt _ (by norm_num)
      simp only [digCore]
      rw [if_pos (by omega)]
      simp only [digCore, List.length_append, List.length_cons, List.length_nil]
      congr 1
      have hs : 48 + n % 10 - 48 = n % 10 := by omega
      rw [hs]
      calc (acc * 10 ^ (natDecAux (n / 10)).length + n / 10) * 10 + n % 10
          = acc * (10 ^ (natDecAux (n / 10)).length * 10) + (10 * (n / 10) + n % 10) := by
            ring
        _ = acc * 10 ^ ((natDecAux (n / 10)).length + (0 + 1)) + n := by
            rw [Nat.div_add_mod, pow_succ]

/-- `natDecimal` never produces the empty byte string. -/
theorem natDecimal_ne_nil (n : Nat) : natDecimal n ≠ [] := by
  unfold natDecimal
  by_cases hn : n = 0
  · simp [hn]
  · rw [if_neg hn, natDecAux_eq, if_neg hn]
    simp

/-- Every byte of `natDecimal` is a decimal digit. -/
theorem natDecimal_digits : ∀ n c, c ∈ natDecimal n → 48 ≤ c ∧ c ≤ 57 := by
  intro n c hc
  unfold natDecimal at hc
  by_cases hn : n = 0
  · rw [if_pos hn] at hc; simp at hc; omega
  · rw [if_neg hn] at hc; exact natDecAux_digits n c hc

/-- The digit value of `natDecimal n` is `n`. -/
theorem digitsVal_natDecimal (n : Nat) : digitsVal (natDecimal n) = some n := by
  by_cases hn : n = 0
  · subst hn; decide
  · unfold digitsVal
    rw [if_neg (natDecimal_ne_nil n)]
    unfold natDecimal
    rw [if_neg hn, digCore_natDecAux]
    simp

/-- Atoi inverts the decimal producer on the int64 range (non-negative). -/
theorem parseIntGo_natDecimal (n : Nat) (h : n ≤ 9223372036854775807) :
    parseIntGo (natDecimal n) = some (n : Int) := by
  obtain ⟨c, t, hct⟩ : ∃ c t, natDecimal n = c :: t := by
    cases hh : natDecimal n with
    | nil => exact absurd hh (natDecimal_ne_nil n)
    | cons c t => exact ⟨c, t, rfl⟩
  have hd : 48 ≤ c ∧ c ≤ 57 := natDecimal_digits n c (by rw [hct]; simp)
  rw [hct]
  simp only [parseIntGo]
  rw [if_neg (by omega), if_neg (by omega), ← hct, digitsVal_natDecimal]
  simp [h]

/-- Atoi inverts strconv.AppendInt on the int64 range. -/
theorem parseIntGo_intDecimal (n : Int) (h1 : -9223372036854775808 ≤ n)
    (h2 : n ≤ 9223372036854775807) : parseIntGo (intDecimal n) = some n := by
  unfold intDecimal
  by_cases hn : n < 0
  · rw [if_pos hn]
    simp only [parseIntGo]
    rw [if_pos trivial, digitsVal_natDecimal]
    simp only [Option.some_bind]
    rw [if_neg (by norm_num : ¬ (45 : Nat) = 43)]
    rw [if_pos (by omega : (-n).toNat ≤ 9223372036854775808)]
    congr 1
    omega
  · rw [if_neg hn, parseIntGo_natDecimal n.toNat (by omega)]
    congr 1
    omega

/-- `wrap64` is the identity on the int64 range. -/
theorem wrap64_eq (x : Int) (h1 : -9223372036854775808 ≤ x)
    (h2 : x ≤ 9223372036854775807) : wrap64 x = x := by
  unfold wrap64
  omega

/-- The header scan of `ReadNextRESP` over a `\n`-free payload followed by
CRLF stops right after the CRLF. -/
theorem scanCR_run : ∀ (pre : List Nat) prev pos rest, (∀ c ∈ pre, c ≠ 10) →
    Resp.scanCR prev (pre ++ 13 :: 10 :: rest) pos = some (pos + pre.length + 2) := by
  intro pre
  induction pre with
  | nil =>
    intro prev pos rest _
    simp [Resp.scanCR]
  | cons c t ih =>
    intro prev pos rest hp
    have hc : c ≠ 10 := hp c (by simp)
    simp only [List.cons_append, Resp.scanCR, List.append_eq]
    rw [if_neg hc, ih c (pos + 1) rest (fun x hx => hp x (by simp [hx]))]
    congr 1
    simp only [List.length_cons]
    omega

end RoundTripLemmas
section RT0
open Resp
/-- `appendPrefix` always produces marker, decimal digits, CRLF (the
single-digit fast path agrees with strconv). -/
theorem appendPfx_eq (b : List Nat) (c : Nat) (n : Int) :
    appendPfx b c n = b ++ c :: intDecimal n ++ [13, 10] := by
  unfold appendPfx
  by_cases h : 0 ≤ n ∧ n ≤ 9
  · rw [if_pos h]
    have hsingle : natDecimal n.toNat = [48 + n.toNat] := by
      unfold natDecimal
      by_cases hz : n.toNat = 0
      · simp [hz]
      · rw [if_neg hz, natDecAux_eq, if_neg hz]
        have h10 : n.toNat / 10 = 0 := Nat.div_eq_of_lt (by omega)
        have hmod : n.toNat % 10 = n.toNat := Nat.mod_eq_of_lt (by omega)
        rw [h10, hmod, natDecAux_eq]
        simp
    have hid : intDecimal n = [48 + n.toNat] := by
      unfold intDecimal
      rw [if_neg (by omega), hsingle]
    rw [hid]
    simp
  · rw [if_neg h]

/-- The decimal of a natural-number cast. -/
theorem intDecimal_natCast (m : Nat) : intDecimal (m : Int) = natDecimal m := by
  unfold intDecimal
  rw [if_neg (by omega)]
  simp

/-- No digit byte (nor the minus sign) is CR or LF. -/
theorem intDecimal_noCRLF (n : Int) : ∀ c ∈ intDecimal n, c ≠ 10 ∧ c ≠ 13 := by
  intro c hc
  unfold intDecimal at hc
  split at hc
  · simp only [List.mem_cons] at hc
    rcases hc with h | h
    · omega
    · have := natDecimal_digits _ c h; omega
  · have := natDecimal_digits _ c hc; omega

/-- `natDecimal` bytes are never LF. -/
theorem natDecimal_noCRLF (m : Nat) : ∀ c ∈ natDecimal m, c ≠ 10 ∧ c ≠ 13 := by
  intro c hc
  have := natDecimal_digits _ c hc
  omega

/-- The integer validation of `ReadNextRESP` accepts every strconv
decimal. -/
theorem isValidInt_intDecimal (n : Int) : Resp.isValidInt (intDecimal n) = true := by
  have hdig : ∀ m, (natDecimal m).all Resp.isDigit = true := by
    intro m
    rw [List.all_eq_true]
    intro c hc
    have := natDecimal_digits _ c hc
    simp [Resp.isDigit]
    omega
  unfold intDecimal
  split
  · simp only [Resp.isValidInt]
    rw [if_pos trivial, Bool.and_eq_true]
    constructor
    · simp [List.isEmpty_iff, natDecimal_ne_nil]
    · exact hdig _
  · obtain ⟨c, t, hct⟩ : ∃ c t, natDecimal n.toNat = c :: t := by
      cases hh : natDecimal n.toNat with
      | nil => exact absurd hh (natDecimal_ne_nil _)
      | cons c t => exact ⟨c, t, rfl⟩
    have hd : 48 ≤ c ∧ c ≤ 57 := natDecimal_digits _ c (by rw [hct]; simp)
    rw [hct]
    simp only [Resp.isValidInt]
    rw [if_neg (by omega), ← hct]
    exact hdig _

/-- Scan-ready shape of a serialized integer. -/
theorem writeWV_int (n : Int) (suffix : List Nat) :
    Resp.writeWV (.int n) ++ suffix = 58 :: (intDecimal n ++ 13 :: 10 :: suffix) := by
  simp [Resp.writeWV, Resp.AppendInt, appendPfx_eq]

/-- Length of a serialized integer. -/
theorem writeWV_int_length (n : Int) :
    (Resp.writeWV (.int n)).length = (intDecimal n).length + 3 := by
  have := writeWV_int n []
  simp only [List.append_nil] at this
  rw [this]
  simp only [List.length_cons, List.length_append, List.length_nil]

/-- Drop the marker and the length header from the payload slice. -/
theorem sliceGo_payload (m : Nat) (pay rest : List Nat) :
    sliceGo (m :: (pay ++ rest)) 1 (pay.length + 1) = pay := by
  unfold sliceGo
  simp only [List.drop_succ_cons, List.drop_zero, Nat.add_sub_cancel, List.take_left]

/-- Taking the header prefix of a marker/payload/CRLF/tail buffer. -/
theorem take_header (m : Nat) (pay rest : List Nat) :
    (m :: (pay ++ 13 :: 10 :: rest)).take (pay.length + 3) = m :: (pay ++ [13, 10]) := by
  have h3 : pay.length + 3 = (pay.length + 2) + 1 := by omega
  rw [h3, List.take_succ_cons]
  congr 1
  rw [List.take_append 2]
  rfl

/-- Round trip for a serialized integer, with any trailing bytes. -/
theorem readF_int (n : Int) (suffix : List Nat) (fuel : Nat)
    (hf : 0 < fuel) :
    Resp.readF fuel (Resp.writeWV (.int n) ++ suffix) =
      .res (Resp.writeWV (.int n)).length (Resp.respOfWV (.int n)) := by
  obtain ⟨f, rfl⟩ : ∃ f, fuel = f + 1 := ⟨fuel - 1, by omega⟩
  rw [writeWV_int, writeWV_int_length]
  simp only [Resp.readF]
  rw [if_neg (by norm_num)]
  rw [scanCR_run (intDecimal n) 58 1 suffix (fun c hc => (intDecimal_noCRLF n c hc).1)]
  have e1 : 1 + (intDecimal n).length + 2 = (intDecimal n).length + 3 := by omega
  rw [e1]
  dsimp only
  rw [if_pos trivial]
  have e2 : (intDecimal n).length + 3 - 2 = (intDecimal n).length + 1 := by omega
  rw [e2, sliceGo_payload 58 (intDecimal n) (13 :: 10 :: suffix), isValidInt_intDecimal]
  rw [if_pos rfl, take_header]
  simp [Resp.respOfWV, Resp.AppendInt, appendPfx_eq]

end RT0

section RT1
open Resp

/-- Stripping newlines from a CR/LF-free payload is the identity. -/
theorem stripNewlines_id : ∀ (s : List Nat), (∀ c ∈ s, c ≠ 13 ∧ c ≠ 10) →
    Resp.stripNewlines s = s := by
  intro s
  induction s with
  | nil => intro _; rfl
  | cons c t ih =>
    intro h
    have hc := h c (by simp)
    simp only [Resp.stripNewlines, List.map_cons]
    rw [if_neg (by omega)]
    have := ih fun x hx => h x (by simp [hx])
    simp only [Resp.stripNewlines] at this
    rw [this]

/-- One header-terminated value for the SimpleString and Error kinds. -/
theorem readF_plain (b0 : Nat) (hb0 : b0 = 43 ∨ b0 = 45) (p suffix : List Nat)
    (fuel : Nat) (hp : ∀ c ∈ p, c ≠ 13 ∧ c ≠ 10) (hf : 0 < fuel) :
    Resp.readF fuel (b0 :: (p ++ 13 :: 10 :: suffix)) =
      .res (p.length + 3) ⟨b0, b0 :: (p ++ [13, 10]), some p, 0⟩ := by
  obtain ⟨f, rfl⟩ : ∃ f, fuel = f + 1 := ⟨fuel - 1, by omega⟩
  simp only [Resp.readF]
  rw [if_neg (by rcases hb0 with h | h <;> simp [h])]
  rw [scanCR_run p b0 1 suffix (fun c hc => (hp c hc).2)]
  have e1 : 1 + p.length + 2 = p.length + 3 := by omega
  rw [e1]
  dsimp only
  rw [if_neg (by rcases hb0 with h | h <;> omega)]
  rw [if_pos hb0]
  have e2 : p.length + 3 - 2 = p.length + 1 := by omega
  rw [e2, sliceGo_payload b0 p (13 :: 10 :: suffix), take_header]

/-- Round trip for a serialized simple string, with any trailing bytes. -/
theorem readF_simple (s suffix : List Nat) (fuel : Nat)
    (hs : ∀ c ∈ s, c ≠ 13 ∧ c ≠ 10) (hf : 0 < fuel) :
    Resp.readF fuel (Resp.writeWV (.simple s) ++ suffix) =
      .res (Resp.writeWV (.simple s)).length (Resp.respOfWV (.simple s)) := by
  have hshape : Resp.writeWV (.simple s) ++ suffix = 43 :: (s ++ 13 :: 10 :: suffix) := by
    simp [Resp.writeWV, Resp.AppendString, stripNewlines_id s hs]
  have hlen : (Resp.writeWV (.simple s)).length = s.length + 3 := by
    have := hshape
    have h2 : (Resp.writeWV (.simple s) ++ suffix).length =
        (43 :: (s ++ 13 :: 10 :: suffix)).length := by rw [this]
    simp only [List.length_append, List.length_cons] at h2
    omega
  rw [hshape, hlen, readF_plain 43 (Or.inl rfl) s suffix fuel hs hf]
  simp [Resp.respOfWV, Resp.AppendString, stripNewlines_id s hs]

/-- Round trip for a serialized error, with any trailing bytes. -/
theorem readF_err (s suffix : List Nat) (fuel : Nat)
    (hs : ∀ c ∈ s, c ≠ 13 ∧ c ≠ 10) (hf : 0 < fuel) :
    Resp.readF fuel (Resp.writeWV (.err s) ++ suffix) =
      .res (Resp.writeWV (.err s)).length (Resp.respOfWV (.err s)) := by
  have hshape : Resp.writeWV (.err s) ++ suffix = 45 :: (s ++ 13 :: 10 :: suffix) := by
    simp [Resp.writeWV, Resp.AppendError, stripNewlines_id s hs]
  have hlen : (Resp.writeWV (.err s)).length = s.length + 3 := by
    have h2 : (Resp.writeWV (.err s) ++ suffix).length =
        (45 :: (s ++ 13 :: 10 :: suffix)).length := by rw [hshape]
    simp only [List.length_append, List.length_cons] at h2
    omega
  rw [hshape, hlen, readF_plain 45 (Or.inr rfl) s suffix fuel hs hf]
  simp [Resp.respOfWV, Resp.AppendError, stripNewlines_id s hs]

end RT1

section RT2
open Resp

/-- Digit-count bound for the fuelled decimal producer. -/
theorem natDecAux_length : ∀ k m, m < 10 ^ k → (natDecAux m).length ≤ k := by
  intro k
  induction k with
  | zero =>
    intro m h
    have : m = 0 := by omega
    subst this
    rw [natDecAux_eq]
    simp
  | succ k ih =>
    intro m h
    by_cases hm : m = 0
    · subst hm; rw [natDecAux_eq]; simp
    · rw [natDecAux_eq, if_neg hm]
      simp only [List.length_append, List.length_cons, List.length_nil]
      have hd : m / 10 < 10 ^ k := by
        rw [Nat.div_lt_iff_lt_mul (by norm_num)]
        calc m < 10 ^ (k + 1) := h
          _ = 10 ^ k * 10 := by rw [pow_succ]
      have := ih (m / 10) hd
      omega

/-- Digit-count bound for int64-range numbers. -/
theorem natDecimal_length_le (m : Nat) (h : m ≤ 9223372036854775807) :
    (natDecimal m).length ≤ 19 := by
  unfold natDecimal
  by_cases hm : m = 0
  · simp [hm]
  · rw [if_neg hm]
    exact natDecAux_length 19 m (by norm_num at h ⊢; omega)

/-- Scan-ready shape of a serialized bulk string. -/
theorem writeWV_bulk (d suffix : List Nat) :
    Resp.writeWV (.bulk d) ++ suffix =
      36 :: (natDecimal d.length ++ 13 :: 10 :: (d ++ 13 :: 10 :: suffix)) := by
  simp [Resp.writeWV, Resp.AppendBulk, appendPfx_eq, intDecimal_natCast]

/-- Length of a serialized bulk string. -/
theorem writeWV_bulk_length (d : List Nat) :
    (Resp.writeWV (.bulk d)).length = (natDecimal d.length).length + d.length + 5 := by
  have h2 : (Resp.writeWV (.bulk d) ++ []).length =
      (36 :: (natDecimal d.length ++ 13 :: 10 :: (d ++ 13 :: 10 :: []))).length := by
    rw [writeWV_bulk]
  simp only [List.append_nil, List.length_cons, List.length_append, List.length_nil] at h2
  omega

/-- Round trip for a serialized bulk string (arbitrary payload bytes,
including CR/LF), with any trailing bytes. -/
theorem readF_bulk (d suffix : List Nat) (fuel : Nat)
    (hlen : d.length ≤ 9223372036854775782) (hf : 0 < fuel) :
    Resp.readF fuel (Resp.writeWV (.bulk d) ++ suffix) =
      .res (Resp.writeWV (.bulk d)).length (Resp.respOfWV (.bulk d)) := by
  obtain ⟨f, rfl⟩ : ∃ f, fuel = f + 1 := ⟨fuel - 1, by omega⟩
  have hL : (natDecimal d.length).length ≤ 19 :=
    natDecimal_length_le d.length (by omega)
  rw [writeWV_bulk, writeWV_bulk_length]
  simp only [Resp.readF]
  rw [if_neg (by norm_num)]
  rw [scanCR_run (natDecimal d.length) 36 1 (d ++ 13 :: 10 :: suffix)
    (fun c hc => (natDecimal_noCRLF d.length c hc).1)]
  set L := (natDecimal d.length).length with hLdef
  have e1 : 1 + L + 2 = L + 3 := by omega
  rw [e1]
  dsimp only
  rw [if_neg (by omega)]
  rw [if_neg (by omega)]
  have e2 : L + 3 - 2 = L + 1 := by omega
  rw [e2, sliceGo_payload 36 (natDecimal d.length) (13 :: 10 :: (d ++ 13 :: 10 :: suffix))]
  rw [parseIntGo_natDecimal d.length (by omega)]
  dsimp only
  rw [if_pos trivial]
  rw [if_neg (by omega : ¬ ((d.length : Int) < 0))]
  -- the buffer, decomposed for length and index computations
  have hb : (36 : Nat) :: (natDecimal d.length ++ 13 :: 10 :: (d ++ 13 :: 10 :: suffix)) =
      (36 :: (natDecimal d.length ++ [13, 10])) ++ (d ++ 13 :: 10 :: suffix) := by
    simp
  have hblen : ((36 : Nat) :: (natDecimal d.length ++ 13 :: 10 :: (d ++ 13 :: 10 :: suffix))).length
      = L + 3 + d.length + 2 + suffix.length := by
    simp only [List.length_cons, List.length_append]
    omega
  have hwrap2 : wrap64 (((L + 3 : Nat) : Int) + (d.length : Int) + 2) =
      ((L + 3 : Nat) : Int) + (d.length : Int) + 2 :=
    wrap64_eq _ (by push_cast; omega) (by push_cast; omega)
  rw [if_neg (by rw [hwrap2, hblen]; intro hcon; push_cast at hcon; omega)]
  have hwrap0 : wrap64 (((L + 3 : Nat) : Int) + (d.length : Int)) =
      ((L + 3 : Nat) : Int) + (d.length : Int) :=
    wrap64_eq _ (by push_cast; omega) (by push_cast; omega)
  have hhdrlen : ((36 : Nat) :: (natDecimal d.length ++ [13, 10])).length = L + 3 := by
    simp only [List.length_cons, List.length_append, List.length_nil]
  have hget1 : getI ((36 : Nat) :: (natDecimal d.length ++ 13 :: 10 :: (d ++ 13 :: 10 :: suffix)))
      (wrap64 (((L + 3 : Nat) : Int) + (d.length : Int))) = some 13 := by
    rw [hwrap0]
    unfold getI
    rw [if_neg (by push_cast; omega)]
    have ht : ((((L + 3 : Nat) : Int) + (d.length : Int))).toNat = (L + 3) + d.length := by
      push_cast; omega
    rw [ht, hb]
    rw [List.get?_append_right (by omega)]
    rw [hhdrlen]
    have : L + 3 + d.length - (L + 3) = d.length := by omega
    rw [this]
    rw [List.get?_append_right (by omega)]
    simp
  have hget2 : getI ((36 : Nat) :: (natDecimal d.length ++ 13 :: 10 :: (d ++ 13 :: 10 :: suffix)))
      (wrap64 (((L + 3 : Nat) : Int) + (d.length : Int) + 1)) = some 10 := by
    rw [wrap64_eq _ (by push_cast; omega) (by push_cast; omega)]
    unfold getI
    rw [if_neg (by push_cast; omega)]
    have ht : ((((L + 3 : Nat) : Int) + (d.length : Int) + 1)).toNat = (L + 3) + (d.length + 1) := by
      push_cast; omega
    rw [ht, hb]
    rw [List.get?_append_right (by omega)]
    rw [hhdrlen]
    have : L + 3 + (d.length + 1) - (L + 3) = d.length + 1 := by omega
    rw [this]
    rw [List.get?_append_right (by omega)]
    have : d.length + 1 - d.length = 1 := by omega
    rw [this]
    simp
  rw [hget1]
  dsimp only
  rw [if_neg (by omega)]
  rw [hget2]
  dsimp only
  rw [if_neg (by omega)]
  have htn : ((d.length : Int)).toNat = d.length := by omega
  rw [htn]
  -- final record fields
  have hraw : List.take (L + 3 + d.length + 2)
      ((36 : Nat) :: (natDecimal d.length ++ 13 :: 10 :: (d ++ 13 :: 10 :: suffix)))
      = Resp.writeWV (.bulk d) := by
    have hsh := writeWV_bulk d suffix
    have hlw : (Resp.writeWV (.bulk d)).length = L + 3 + d.length + 2 := by
      rw [writeWV_bulk_length]; omega
    rw [← hsh, ← hlw, List.take_left]
  have hdata : sliceGo ((36 : Nat) :: (natDecimal d.length ++ 13 :: 10 :: (d ++ 13 :: 10 :: suffix)))
      (L + 3) (L + 3 + d.length) = d := by
    unfold sliceGo
    rw [hb, List.drop_left' hhdrlen]
    have : L + 3 + d.length - (L + 3) = d.length := by omega
    rw [this, List.take_left]
  rw [hraw, hdata]
  have hfin : L + 3 + d.length + 2 = (natDecimal d.length).length + d.length + 5 := by omega
  rw [hfin]
  simp [Resp.respOfWV, Resp.writeWV]

end RT2

section RT3
open Resp

/-- Every parsed serialized value has a non-zero type marker. -/
theorem respOfWV_type_ne (e : Resp.WV) : (Resp.respOfWV e).type ≠ 0 := by
  cases e <;> simp [Resp.respOfWV]

/-- Scan-ready shape of a serialized array. -/
theorem writeWV_arr (es : List Resp.WV) (suffix : List Nat) :
    Resp.writeWV (.arr es) ++ suffix =
      42 :: (natDecimal es.length ++ 13 :: 10 :: (Resp.writeWVList es ++ suffix)) := by
  simp [Resp.writeWV, Resp.AppendArray, appendPfx_eq, intDecimal_natCast]

/-- Length of a serialized array. -/
theorem writeWV_arr_length (es : List Resp.WV) :
    (Resp.writeWV (.arr es)).length =
      (natDecimal es.length).length + 3 + (Resp.writeWVList es).length := by
  have h2 : (Resp.writeWV (.arr es) ++ []).length =
      (42 :: (natDecimal es.length ++ 13 :: 10 :: (Resp.writeWVList es ++ []))).length := by
    rw [writeWV_arr]
  simp only [List.append_nil, List.length_cons, List.length_append] at h2
  omega

/-- The element loop of the Array branch consumes exactly the serialized
elements when each element round-trips. -/
theorem readElemsGo_write (fuel : Nat) :
    ∀ (es : List Resp.WV) (suffix : List Nat),
    (∀ e ∈ es, ∀ suf2 : List Nat, Resp.WFb e = true →
      (Resp.writeWV e ++ suf2).length < fuel →
      Resp.readF fuel (Resp.writeWV e ++ suf2) =
        .res (Resp.writeWV e).length (Resp.respOfWV e)) →
    Resp.WFbList es = true →
    (Resp.writeWVList es ++ suffix).length < fuel →
    Resp.readElemsGo (Resp.readF fuel) es.length (Resp.writeWVList es ++ suffix) =
      .ok (Resp.writeWVList es).length := by
  intro es
  induction es with
  | nil => intro suffix _ _ _; simp [Resp.writeWVList, Resp.readElemsGo]
  | cons e t ih =>
    intro suffix hRT hwf hflen
    simp only [Resp.WFbList, Bool.and_eq_true] at hwf
    have hsh : Resp.writeWVList (e :: t) = Resp.writeWV e ++ Resp.writeWVList t := rfl
    rw [hsh, List.append_assoc] at hflen ⊢
    simp only [List.length_cons, Resp.readElemsGo]
    rw [hRT e (by simp) (Resp.writeWVList t ++ suffix) hwf.1
      (by simpa using hflen)]
    dsimp only
    rw [if_neg (respOfWV_type_ne e)]
    rw [List.drop_left]
    rw [ih suffix (fun x hx suf2 => hRT x (by simp [hx]) suf2) hwf.2
      (by simp only [List.length_append] at hflen ⊢; omega)]
    simp [List.length_append]

/-- Round trip for a serialized array, given that its elements round-trip
at the child fuel. -/
theorem readF_arr (es : List Resp.WV) (suffix : List Nat) (fuel : Nat)
    (hcnt : es.length ≤ 9223372036854775807)
    (hfl : (Resp.writeWV (.arr es) ++ suffix).length < fuel)
    (hwfl : Resp.WFbList es = true)
    (hRT : ∀ e ∈ es, ∀ suf2 : List Nat, Resp.WFb e = true →
      (Resp.writeWV e ++ suf2).length < fuel - 1 →
      Resp.readF (fuel - 1) (Resp.writeWV e ++ suf2) =
        .res (Resp.writeWV e).length (Resp.respOfWV e)) :
    Resp.readF fuel (Resp.writeWV (.arr es) ++ suffix) =
      .res (Resp.writeWV (.arr es)).length (Resp.respOfWV (.arr es)) := by
  have hf : 0 < fuel := by
    have := hfl
    omega
  obtain ⟨f, rfl⟩ : ∃ f, fuel = f + 1 := ⟨fuel - 1, by omega⟩
  have hLpos : 1 ≤ (natDecimal es.length).length := by
    cases hh : natDecimal es.length with
    | nil => exact absurd hh (natDecimal_ne_nil _)
    | cons c t => simp
  have hflen2 := hfl
  rw [writeWV_arr] at hflen2
  simp only [List.length_cons, List.length_append] at hflen2
  rw [writeWV_arr, writeWV_arr_length]
  simp only [Resp.readF]
  rw [if_neg (by norm_num)]
  rw [scanCR_run (natDecimal es.length) 42 1 (Resp.writeWVList es ++ suffix)
    (fun c hc => (natDecimal_noCRLF es.length c hc).1)]
  set L := (natDecimal es.length).length with hLdef
  have e1 : 1 + L + 2 = L + 3 := by omega
  rw [e1]
  dsimp only
  rw [if_neg (by omega)]
  rw [if_neg (by omega)]
  have e2 : L + 3 - 2 = L + 1 := by omega
  rw [e2, sliceGo_payload 42 (natDecimal es.length) (13 :: 10 :: (Resp.writeWVList es ++ suffix))]
  rw [parseIntGo_natDecimal es.length hcnt]
  dsimp only
  rw [if_neg (by omega)]
  have hiter : (if (es.length : Int) ≤ 0 then 0 else ((es.length : Int)).toNat) = es.length := by
    split <;> omega
  rw [hiter]
  have hhdrlen : ((42 : Nat) :: (natDecimal es.length ++ [13, 10])).length = L + 3 := by
    simp only [List.length_cons, List.length_append, List.length_nil]
  have hb : (42 : Nat) :: (natDecimal es.length ++ 13 :: 10 :: (Resp.writeWVList es ++ suffix)) =
      (42 :: (natDecimal es.length ++ [13, 10])) ++ (Resp.writeWVList es ++ suffix) := by
    simp
  have hdrop : ((42 : Nat) :: (natDecimal es.length ++ 13 :: 10 ::
      (Resp.writeWVList es ++ suffix))).drop (L + 3) = Resp.writeWVList es ++ suffix := by
    rw [hb, List.drop_left' hhdrlen]
  rw [hdrop]
  rw [readElemsGo_write f es suffix (by simpa using hRT) hwfl
    (by simp only [List.length_append] at hflen2 ⊢; omega)]
  dsimp only
  have hraw : List.take (L + 3 + (Resp.writeWVList es).length)
      ((42 : Nat) :: (natDecimal es.length ++ 13 :: 10 :: (Resp.writeWVList es ++ suffix)))
      = Resp.writeWV (.arr es) := by
    have hsh := writeWV_arr es suffix
    have hlw : (Resp.writeWV (.arr es)).length = L + 3 + (Resp.writeWVList es).length := by
      rw [writeWV_arr_length]
    rw [← hsh, ← hlw, List.take_left]
  have hdata : sliceGo ((42 : Nat) :: (natDecimal es.length ++ 13 :: 10 ::
      (Resp.writeWVList es ++ suffix))) (L + 3) (L + 3 + (Resp.writeWVList es).length)
      = Resp.writeWVList es := by
    unfold sliceGo
    rw [hdrop]
    have : L + 3 + (Resp.writeWVList es).length - (L + 3) = (Resp.writeWVList es).length := by
      omega
    rw [this, List.take_left]
  rw [hraw, hdata]
  have hfin : L + 3 + (Resp.writeWVList es).length =
      (natDecimal es.length).length + 3 + (Resp.writeWVList es).length := by omega
  rw [hfin]
  simp [Resp.respOfWV, Resp.writeWV]

end RT3

section RT4
open Resp

/-- A list equal to its own map forces the function to fix every member. -/
theorem map_eq_self_of (f : Nat → Nat) : ∀ (l : List Nat), l.map f = l → ∀ x ∈ l, f x = x := by
  intro l
  induction l with
  | nil => intro _ x hx; cases hx
  | cons a t ih =>
    intro h x hx
    rw [List.map_cons, List.cons.injEq] at h
    rcases List.mem_cons.mp hx with rfl | hxt
    · exact h.1
    · exact ih h.2 x hxt

/-- The output of `stripNewlines` never holds a CR or LF byte. -/
theorem stripNewlines_noCRLF (s : List Nat) :
    ∀ c ∈ Resp.stripNewlines s, c ≠ 13 ∧ c ≠ 10 := by
  intro c hc
  simp only [Resp.stripNewlines, List.mem_map] at hc
  obtain ⟨x, _, rfl⟩ := hc
  constructor <;> (split_ifs <;> omega)

/-- A payload holding a CR or LF is changed by `stripNewlines`. -/
theorem stripNewlines_ne (s : List Nat) (hex : ∃ c ∈ s, c = 13 ∨ c = 10) :
    Resp.stripNewlines s ≠ s := by
  intro heq
  obtain ⟨c, hc, hor⟩ := hex
  have hfix := map_eq_self_of _ s heq c hc
  rw [if_pos hor] at hfix
  omega

/-- Master round trip: every well-formed wire value, serialized and followed
by arbitrary bytes, parses back to itself consuming exactly its own length,
for any fuel above the buffer length.  Strong induction on `sizeOf`. -/
theorem readF_write : ∀ (N : Nat) (v : Resp.WV), sizeOf v ≤ N →
    ∀ (suffix : List Nat) (fuel : Nat), Resp.WFb v = true →
    (Resp.writeWV v ++ suffix).length < fuel →
    Resp.readF fuel (Resp.writeWV v ++ suffix) =
      .res (Resp.writeWV v).length (Resp.respOfWV v) := by
  intro N
  induction N with
  | zero =>
    intro v hv
    exfalso
    cases v <;> simp at hv
  | succ n ih =>
    intro v hv suffix fuel hwf hfl
    have hf : 0 < fuel := by
      have : 0 ≤ (Resp.writeWV v ++ suffix).length := Nat.zero_le _
      omega
    cases v with
    | int m => exact readF_int m suffix fuel hf
    | simple s =>
      have hs : ∀ c ∈ s, c ≠ 13 ∧ c ≠ 10 := by
        simpa [Resp.WFb, List.all_eq_true, decide_eq_true_eq] using hwf
      exact readF_simple s suffix fuel hs hf
    | err s =>
      have hs : ∀ c ∈ s, c ≠ 13 ∧ c ≠ 10 := by
        simpa [Resp.WFb, List.all_eq_true, decide_eq_true_eq] using hwf
      exact readF_err s suffix fuel hs hf
    | bulk d =>
      have hd : d.length ≤ 9223372036854775782 := by
        simpa [Resp.WFb, decide_eq_true_eq] using hwf
      exact readF_bulk d suffix fuel hd hf
    | arr es =>
      have hwf2 := hwf
      simp only [Resp.WFb, Bool.and_eq_true, decide_eq_true_eq] at hwf2
      obtain ⟨hcnt, hwfl⟩ := hwf2
      apply readF_arr es suffix fuel hcnt hfl hwfl
      intro e he suf2 hwe hfl2
      have hse : sizeOf e < sizeOf es := List.sizeOf_lt_of_mem he
      have hsv : sizeOf (Resp.WV.arr es) = 1 + sizeOf es := by
        simp
      have hen : sizeOf e ≤ n := by omega
      exact ih e hen suf2 (fuel - 1) hwe hfl2

end RT4

section ClaimC7
open Resp

/-- C7: serializing an Integer, Bulk (arbitrary bytes, CR/LF included), or
Array with its `Append*` writer and parsing the result with `ReadNextRESP`
reproduces the value and consumes exactly the bytes written (first conjunct,
which also covers CR/LF-free SimpleString and Error payloads, the
well-formedness side of the "exactly when"); a SimpleString or Error payload
that does contain CR or LF is emitted with those bytes replaced, so the parse
returns `stripNewlines s`, which differs from `s` - the round trip fails
(second conjunct). -/
theorem C7_write_read_roundtrip :
    (∀ v : Resp.WV, Resp.WFb v = true →
      Resp.ReadNextRESP (Resp.writeWV v) =
        .res (Resp.writeWV v).length (Resp.respOfWV v)) ∧
    (∀ s : List Nat, (∃ c ∈ s, c = 13 ∨ c = 10) →
      Resp.ReadNextRESP (Resp.AppendString [] s) =
        .res (Resp.AppendString [] s).length
          ⟨43, Resp.AppendString [] s, some (Resp.stripNewlines s), 0⟩ ∧
      Resp.ReadNextRESP (Resp.AppendError [] s) =
        .res (Resp.AppendError [] s).length
          ⟨45, Resp.AppendError [] s, some (Resp.stripNewlines s), 0⟩ ∧
      Resp.stripNewlines s ≠ s) := by
  constructor
  · intro v hwf
    have h := readF_write (sizeOf v) v le_rfl [] ((Resp.writeWV v).length + 1) hwf
      (by simp)
    rw [Resp.ReadNextRESP]
    simpa using h
  · intro s hex
    have hp := stripNewlines_noCRLF s
    refine ⟨?_, ?_, stripNewlines_ne s hex⟩
    · have hsh : Resp.AppendString [] s =
          43 :: (Resp.stripNewlines s ++ 13 :: 10 :: []) := by
        simp [Resp.AppendString]
      rw [Resp.ReadNextRESP, hsh,
        readF_plain 43 (Or.inl rfl) (Resp.stripNewlines s) []
          ((43 :: (Resp.stripNewlines s ++ [13, 10])).length + 1) hp (Nat.succ_pos _)]
      simp
    · have hsh : Resp.AppendError [] s =
          45 :: (Resp.stripNewlines s ++ 13 :: 10 :: []) := by
        simp [Resp.AppendError]
      rw [Resp.ReadNextRESP, hsh,
        readF_plain 45 (Or.inr rfl) (Resp.stripNewlines s) []
          ((45 :: (Resp.stripNewlines s ++ [13, 10])).length + 1) hp (Nat.succ_pos _)]
      simp

/-- A nested array holding an integer, a CR/LF-laden bulk and a simple string
round-trips through write and read; a simple-string payload holding a CR is
changed by the writer. -/
theorem C7_write_read_roundtrip_witness :
    (Resp.ReadNextRESP (Resp.writeWV
        (.arr [.int (-5), .bulk [1, 13, 10, 2], .simple [79, 75]])) =
      .res (Resp.writeWV
        (.arr [.int (-5), .bulk [1, 13, 10, 2], .simple [79, 75]])).length
        (Resp.respOfWV
          (.arr [.int (-5), .bulk [1, 13, 10, 2], .simple [79, 75]]))) ∧
    Resp.stripNewlines [65, 13, 66] ≠ [65, 13, 66] :=
  ⟨C7_write_read_roundtrip.1 _
    (by simp [Resp.WFb, Resp.WFbList]),
   (C7_write_read_roundtrip.2 [65, 13, 66] ⟨13, by simp, Or.inl rfl⟩).2.2⟩

end ClaimC7
